import Mathlib

/-!
Verification of the insight-forge text-analysis pipeline (src/app/actions.ts).

The TypeScript source is shallowly embedded: strings become `List Char`,
JavaScript values flowing through the pipeline become the inductive `JVal`,
and the external Cloudflare AI service is an explicit oracle parameter
(`Except Unit (Option Str)`: `.error` models a thrown exception at the call
site, `.ok none` models a response without a `result.response` field, and
`.ok (some s)` models a textual response `s`).
-/

set_option autoImplicit false

/-! ## Definitions: the shallow embedding of actions.ts -/

/-- Program strings are modelled as lists of characters. -/
abbrev Str := List Char

/-- Convenience coercion from Lean string literals. -/
def strOf (s : String) : Str := s.toList

/-- The JavaScript whitespace set: matches the `\s` regex class and the set
trimmed by `String.prototype.trim` (ASCII whitespace plus the Unicode space
separators, line separators and BOM). -/
def isWs (c : Char) : Bool :=
  (0x09 ≤ c.val && c.val ≤ 0x0d) || c.val = 0x20 || c.val = 0xa0 ||
  c.val = 0x1680 || (0x2000 ≤ c.val && c.val ≤ 0x200a) ||
  c.val = 0x2028 || c.val = 0x2029 || c.val = 0x202f ||
  c.val = 0x205f || c.val = 0x3000 || c.val = 0xfeff

/-- `String.prototype.trim`: drop leading and trailing JS whitespace. -/
def jsTrim (l : Str) : Str :=
  ((l.dropWhile isWs).reverse.dropWhile isWs).reverse

/-- Lower-casing as applied by `toLowerCase` (ASCII letters; the embedding
uses Lean's `Char.toLower`, which maps exactly the ASCII uppercase range —
the keyword predicates of the classifier only involve ASCII text). -/
def jsToLower (l : Str) : Str := l.map Char.toLower

/-- `String.prototype.includes`: substring test. -/
def containsSub (hay pat : Str) : Bool :=
  hay.tails.any (fun t => pat.isPrefixOf t)

/-- `text.split(sep)` for a one-character separator: every occurrence
separates, adjacent separators produce empty fragments. -/
def splitCharGo (sep : Char) (cur : Str) : Str → List Str
  | [] => [cur.reverse]
  | c :: cs =>
    if c = sep then cur.reverse :: splitCharGo sep [] cs
    else splitCharGo sep (c :: cur) cs

/-- `text.split(sep)` for a one-character separator string. -/
def splitChar (sep : Char) (l : Str) : List Str := splitCharGo sep [] l

mutual
/-- State of `splitRuns` while inside a fragment: `cur` holds the reversed
fragment read so far. -/
def splitRunsFrag (p : Char → Bool) (cur : Str) : Str → List Str
  | [] => [cur.reverse]
  | c :: cs =>
    if p c then cur.reverse :: splitRunsSep p cs
    else splitRunsFrag p (c :: cur) cs

/-- State of `splitRuns` while inside a separator run. -/
def splitRunsSep (p : Char → Bool) : Str → List Str
  | [] => [[]]
  | c :: cs =>
    if p c then splitRunsSep p cs
    else splitRunsFrag p [c] cs
end

/-- `text.split(/X+/)` where `X` is the character class decided by `p`:
maximal runs of `p`-characters separate the fragments, with an empty leading
(resp. trailing) fragment when the text starts (resp. ends) with a run. -/
def splitRuns (p : Char → Bool) (l : Str) : List Str := splitRunsFrag p [] l

/-- `text.split(/\s+/).filter(w => w.length > 0)` — the word list used both
by `analyzeText` validation and by `fallbackAnalysis`. -/
def wordsOf (l : Str) : List Str :=
  (splitRuns isWs l).filter (fun w => 0 < w.length)

/-- A JavaScript value as produced by `JSON.parse` / built by the pipeline.
Numbers are modelled as integers (every numeric literal in the pipeline and
its claims is integral); the IEEE non-finite values produced by the fallback
analyzer's divisions are represented by the dedicated constructors `inf`
(Infinity) and `nan` (NaN). -/
inductive JVal where
  | null : JVal
  | bool : Bool → JVal
  | num : Int → JVal
  | str : Str → JVal
  | inf : JVal
  | nan : JVal
  | arr : List JVal → JVal
  | obj : List (Str × JVal) → JVal
deriving Inhabited

/-- `typeof v === 'object' && v !== null` — true exactly for arrays and
(non-null) objects. -/
def isJsObject : JVal → Bool
  | .arr _ => true
  | .obj _ => true
  | _ => false

/-- `Array.isArray`. -/
def isJsArray : JVal → Bool
  | .arr _ => true
  | _ => false

/-- A scalar in the sense of the specification: neither an object nor an
array. -/
def isScalar (v : JVal) : Bool := !isJsObject v

/-- JavaScript truthiness of a value (`false`, `0`, `NaN`, the empty string
and `null` are falsy; objects and arrays are always truthy). -/
def truthy : JVal → Bool
  | .null => false
  | .bool b => b
  | .num n => decide (n ≠ 0)
  | .str s => decide (s ≠ [])
  | .inf => true
  | .nan => false
  | .arr _ => true
  | .obj _ => true

/-- `target[key]` on an object represented by its entry list (JS object keys
are unique; the first binding is the authoritative one). -/
def lookupKey : List (Str × JVal) → Str → Option JVal
  | [], _ => none
  | (k', v) :: rest, k => if k' = k then some v else lookupKey rest k

/-- `target[key] = v` on an object entry list: updates the existing binding
in place, or appends a new binding at the end (JS property insertion
order). -/
def setKey : List (Str × JVal) → Str → JVal → List (Str × JVal)
  | [], k, v => [(k, v)]
  | (k', v') :: rest, k, v =>
    if k' = k then (k, v) :: rest else (k', v') :: setKey rest k v

/-- Decimal digits of a natural number. -/
def natDigits (n : Nat) : Str := Nat.toDigits 10 n

/-- JavaScript's decimal rendering of an integer. -/
def intToStr (n : Int) : Str :=
  if n < 0 then '-' :: natDigits n.natAbs else natDigits n.natAbs

/-- Hex digit for `\u00XX` escapes. -/
def hexDigit (n : Nat) : Char :=
  if n < 10 then Char.ofNat ('0'.toNat + n) else Char.ofNat ('a'.toNat + n - 10)

/-- The JSON escaping of one string character, as performed by
`JSON.stringify`. -/
def escapeChar (c : Char) : Str :=
  if c = '"' then ['\\', '"']
  else if c = '\\' then ['\\', '\\']
  else if c = '\n' then ['\\', 'n']
  else if c = '\r' then ['\\', 'r']
  else if c = '\t' then ['\\', 't']
  else if c.val = 0x08 then ['\\', 'b']
  else if c.val = 0x0c then ['\\', 'f']
  else if c.val < 0x20 then
    ['\\', 'u', '0', '0', hexDigit (c.toNat / 16), hexDigit (c.toNat % 16)]
  else [c]

/-- `JSON.stringify` of a string value, including the surrounding quotes. -/
def stringifyStr (s : Str) : Str :=
  '"' :: (s.flatMap escapeChar) ++ ['"']

/-- Comma-separated concatenation. -/
def joinComma : List Str → Str
  | [] => []
  | [x] => x
  | x :: y :: rest => x ++ ',' :: joinComma (y :: rest)

mutual
/-- `JSON.stringify` (no spacing), used by the merge's structural-equality
deduplication and by the confidence scorer's extraction ratio.  Non-finite
numbers serialize to `null`, as in JavaScript. -/
def jsonStringify : JVal → Str
  | .null => strOf "null"
  | .bool b => if b then strOf "true" else strOf "false"
  | .num n => intToStr n
  | .str s => stringifyStr s
  | .inf => strOf "null"
  | .nan => strOf "null"
  | .arr xs => '[' :: joinComma (stringifyList xs) ++ [']']
  | .obj kvs => '{' :: joinComma (stringifyEntries kvs) ++ ['}']

def stringifyList : List JVal → List Str
  | [] => []
  | v :: rest => jsonStringify v :: stringifyList rest

def stringifyEntries : List (Str × JVal) → List Str
  | [] => []
  | (k, v) :: rest => (stringifyStr k ++ ':' :: jsonStringify v) :: stringifyEntries rest
end

/-- The array-merge deduplication:
`combined.filter((item, index, arr) => arr.findIndex(i => JSON.stringify(i) === JSON.stringify(item)) === index)`
keeps an element iff no earlier element has the same serialization —
first-occurrence-order deduplication keyed by `JSON.stringify`. -/
def dedupByStringify (l : List JVal) : List JVal :=
  go [] l
where
  /-- `seen` holds the serializations of the elements already kept. -/
  go (seen : List Str) : List JVal → List JVal
  | [] => []
  | v :: rest =>
    let s := jsonStringify v
    if seen.contains s then go seen rest
    else v :: go (s :: seen) rest

mutual
/-- `mergeAnalysisResults(target, source)` (actions.ts:241-259), value-
returning form of the in-place mutation, on objects represented by their
entry lists (the function's declared type is
`(target: Record<string, any>, source: Record<string, any>)`).
For each source key, in order:
 * both values arrays → concatenate then deduplicate by serialization;
 * both values `typeof 'object'` and non-null → recursive merge (the
   guarded `if (!target[key]) target[key] = {}` is dead code there, since
   objects are truthy).  A mixed array/object pair also satisfies this
   JavaScript test; merging an object's keys into an array value (or array
   indices into an object) is not representable in this record model and is
   embedded as leaving the target unchanged — no claim exercises it;
 * `!target[key]` (key absent **or bound to a falsy value**) → assign the
   source value;
 * otherwise → keep the target value. -/
def mergeAnalysisResults : List (Str × JVal) → List (Str × JVal) → List (Str × JVal)
  | target, [] => target
  | target, (k, sv) :: rest =>
    mergeAnalysisResults (mergeKeyInto target k sv (lookupKey target k)) rest

/-- One iteration of the merge's `forEach` body at source key `k` with source
value `sv`; the last argument is the present target value `target[k]`. -/
def mergeKeyInto (target : List (Str × JVal)) (k : Str) : JVal → Option JVal → List (Str × JVal)
  | .arr sa, some (.arr ta) =>
    setKey target k (.arr (dedupByStringify (ta ++ sa)))
  | .obj skvs, some (.obj tkvs) =>
    setKey target k (.obj (mergeAnalysisResults tkvs skvs))
  | sv, some tv =>
    if isJsObject sv && isJsObject tv then target
    else if truthy tv then target
    else setKey target k sv
  | sv, none => setKey target k sv
end

/-- `text.lastIndexOf(pat, pos)`: the largest start index `i ≤ pos` at which
`pat` occurs in `l` (the occurrence may extend beyond `pos`), or `-1`. -/
def lastIndexOfFrom (pat l : Str) (pos : Nat) : Int :=
  match ((List.range (pos + 1)).filter (fun i => pat.isPrefixOf (l.drop i))).getLast? with
  | some i => (i : Int)
  | none => -1

/-- One iteration of the chunking loop: the cut index chosen for the chunk
starting at `start`.  The JS comparison `breakPoint > startIndex + maxChunkSize * 0.7`
is embedded exactly as the rational comparison `10*breakPoint > 10*start + 7*m`
(both sides are integers scaled by 10; the double rounding of `m * 0.7` can
differ from the exact value only by one ulp and no claim depends on the
boundary). -/
def chunkStep (text : Str) (m start : Nat) : Nat :=
  let e := min (start + m) text.length
  if e < text.length then
    let lastSentence : Int := lastIndexOfFrom ['.'] text e
    let lastParagraph : Int := lastIndexOfFrom ['\n', '\n'] text e
    let breakPoint : Int := max lastSentence lastParagraph
    if 10 * breakPoint > 10 * (start : Int) + 7 * (m : Int) then
      (breakPoint + 1).toNat
    else e
  else e

/-- The chunking loop of `chunkText` for texts longer than the threshold.
The guard `start < e` is provably always true when `1 ≤ m` (claim C9); it
makes the embedding total — with `m = 0` the JavaScript loop would not
terminate. -/
def chunkLoopC (text : Str) (m start : Nat) : List Str :=
  if h1 : start < text.length then
    let e := chunkStep text m start
    if h2 : start < e then
      jsTrim ((text.drop start).take (e - start)) :: chunkLoopC text m e
    else []
  else []
termination_by text.length - start
decreasing_by omega

/-- `chunkText(text, maxChunkSize = 3000)` (actions.ts:63-90). -/
def chunkText (text : Str) (maxChunkSize : Nat := 3000) : List Str :=
  if text.length ≤ maxChunkSize then [text] else chunkLoopC text maxChunkSize 0

/-- `\d{4}-\d{2}-\d{2}` anchored at the head of the list. -/
def isoDateAt : Str → Bool
  | a :: b :: c :: d :: '-' :: e :: f :: '-' :: g :: h :: _ =>
    a.isDigit && b.isDigit && c.isDigit && d.isDigit &&
    e.isDigit && f.isDigit && g.isDigit && h.isDigit
  | _ => false

/-- `\d{1}/\d{1}/\d{4}` anchored at the head. -/
def slashDate11 : Str → Bool
  | a :: '/' :: b :: '/' :: c :: d :: e :: f :: _ =>
    a.isDigit && b.isDigit && c.isDigit && d.isDigit && e.isDigit && f.isDigit
  | _ => false

/-- `\d{1}/\d{2}/\d{4}` anchored at the head. -/
def slashDate12 : Str → Bool
  | a :: '/' :: b :: b2 :: '/' :: c :: d :: e :: f :: _ =>
    a.isDigit && b.isDigit && b2.isDigit &&
    c.isDigit && d.isDigit && e.isDigit && f.isDigit
  | _ => false

/-- `\d{2}/\d{1}/\d{4}` anchored at the head. -/
def slashDate21 : Str → Bool
  | a :: a2 :: '/' :: b :: '/' :: c :: d :: e :: f :: _ =>
    a.isDigit && a2.isDigit && b.isDigit &&
    c.isDigit && d.isDigit && e.isDigit && f.isDigit
  | _ => false

/-- `\d{2}/\d{2}/\d{4}` anchored at the head. -/
def slashDate22 : Str → Bool
  | a :: a2 :: '/' :: b :: b2 :: '/' :: c :: d :: e :: f :: _ =>
    a.isDigit && a2.isDigit && b.isDigit && b2.isDigit &&
    c.isDigit && d.isDigit && e.isDigit && f.isDigit
  | _ => false

/-- `text.match(/\d{4}-\d{2}-\d{2}|\d{1,2}\/\d{1,2}\/\d{4}/)` is non-null:
some position starts an occurrence of either date shape (the `{1,2}`
quantifiers expand to the four explicit digit-count combinations). -/
def hasDatePattern (l : Str) : Bool :=
  l.tails.any (fun t =>
    isoDateAt t || slashDate11 t || slashDate12 t || slashDate21 t || slashDate22 t)

/-- `detectContentType` (actions.ts:93-125): the first matching rule of the
fixed if-chain labels the text; the chain is pure and total by
construction. -/
def detectContentType (text : Str) : Str :=
  let lowerText := jsToLower text
  if containsSub lowerText (strOf "abstract") &&
     containsSub lowerText (strOf "introduction") &&
     containsSub lowerText (strOf "conclusion") then strOf "Academic Paper"
  else if containsSub lowerText (strOf "ingredients") &&
          (containsSub lowerText (strOf "recipe") ||
           containsSub lowerText (strOf "instructions")) then strOf "Recipe"
  else if containsSub lowerText (strOf "experience") &&
          containsSub lowerText (strOf "education") &&
          containsSub lowerText (strOf "skills") then strOf "Resume/CV"
  else if (containsSub lowerText (strOf "email") ||
           containsSub lowerText (strOf "@")) &&
          containsSub lowerText (strOf "password") then strOf "Credentials List"
  else if hasDatePattern lowerText then strOf "Date-based Content"
  else if containsSub lowerText (strOf "meeting") &&
          (containsSub lowerText (strOf "agenda") ||
           containsSub lowerText (strOf "minutes")) then strOf "Meeting Notes"
  else if 10 < (splitChar '\n' text).length && containsSub text (strOf ",") then
    strOf "Structured Data"
  else if containsSub lowerText (strOf "story") ||
          containsSub lowerText (strOf "chapter") ||
          20 < (splitChar '.' text).length then strOf "Narrative/Story"
  else if containsSub lowerText (strOf "product") &&
          (containsSub lowerText (strOf "price") ||
           containsSub lowerText (strOf "feature")) then strOf "Product Information"
  else strOf "General Text"

/-- Modelled from the spec (§4.1): the classifier presented as an ordered
rule table, for the refinement half of claim C5. -/
def specClassifierRules (text : Str) : List (Bool × Str) :=
  let lowerText := jsToLower text
  [ (containsSub lowerText (strOf "abstract") &&
     containsSub lowerText (strOf "introduction") &&
     containsSub lowerText (strOf "conclusion"), strOf "Academic Paper"),
    (containsSub lowerText (strOf "ingredients") &&
     (containsSub lowerText (strOf "recipe") ||
      containsSub lowerText (strOf "instructions")), strOf "Recipe"),
    (containsSub lowerText (strOf "experience") &&
     containsSub lowerText (strOf "education") &&
     containsSub lowerText (strOf "skills"), strOf "Resume/CV"),
    ((containsSub lowerText (strOf "email") ||
      containsSub lowerText (strOf "@")) &&
     containsSub lowerText (strOf "password"), strOf "Credentials List"),
    (hasDatePattern lowerText, strOf "Date-based Content"),
    (containsSub lowerText (strOf "meeting") &&
     (containsSub lowerText (strOf "agenda") ||
      containsSub lowerText (strOf "minutes")), strOf "Meeting Notes"),
    (10 < (splitChar '\n' text).length && containsSub text (strOf ","),
      strOf "Structured Data"),
    (containsSub lowerText (strOf "story") ||
     containsSub lowerText (strOf "chapter") ||
     20 < (splitChar '.' text).length, strOf "Narrative/Story"),
    (containsSub lowerText (strOf "product") &&
     (containsSub lowerText (strOf "price") ||
      containsSub lowerText (strOf "feature")), strOf "Product Information") ]

/-- First matching rule wins; the default label is returned when no rule
matches. -/
def firstRuleLabel : List (Bool × Str) → Str → Str
  | [], dflt => dflt
  | (b, lab) :: rest, dflt => if b then lab else firstRuleLabel rest dflt

/-- Modelled from the spec (§4.1): classification by the ordered rule
table with default label General Text. -/
def detectContentTypeSpec (text : Str) : Str :=
  firstRuleLabel (specClassifierRules text) (strOf "General Text")

/-- Sentence terminators: the class `[.!?]`. -/
def isSentTerm (c : Char) : Bool := c = '.' || c = '!' || c = '?'

/-- `text.split(/[.!?]+/).filter(s => s.trim().length > 0)` — the sentence
list of `fallbackAnalysis`. -/
def sentencesOf (text : Str) : List Str :=
  (splitRuns isSentTerm text).filter (fun s => 0 < (jsTrim s).length)

/-- Index of the last newline within a run of whitespace, used by the
greedy-with-backtracking match of `\n\s*\n`. -/
def lastNlIdx (r : Str) : Option Nat :=
  ((List.range r.length).filter (fun i => (r.drop i).head? = some '\n')).getLast?

/-- Splitting on `/\n\s*\n/`: a match starts at a newline, greedily takes
the following whitespace run and backtracks to the last newline inside it. -/
def paraSplitGo (cur : Str) : Str → List Str
  | [] => [cur.reverse]
  | c :: cs =>
    if c = '\n' then
      match lastNlIdx (cs.takeWhile isWs) with
      | some j => cur.reverse :: paraSplitGo [] (cs.drop (j + 1))
      | none => paraSplitGo (c :: cur) cs
    else paraSplitGo (c :: cur) cs
termination_by l => l.length
decreasing_by all_goals (simp only [List.length_drop, List.length_cons]; omega)

/-- `text.split(/\n\s*\n/)`. -/
def paraSplit (text : Str) : List Str := paraSplitGo [] text

/-- `text.split(/\n\s*\n/).filter(p => p.trim().length > 0)` — the paragraph
list of `fallbackAnalysis`. -/
def paragraphsOf (text : Str) : List Str :=
  (paraSplit text).filter (fun p => 0 < (jsTrim p).length)

/-- The `\w` class: ASCII word characters. -/
def isWordChar (c : Char) : Bool := c.isAlpha || c.isDigit || c = '_'

/-- The `[\w.-]` class used by the email/URL patterns. -/
def isAtomChar (c : Char) : Bool := isWordChar c || c = '.' || c = '-'

/-- The `[\w\/.-]` class ending the URL pattern. -/
def isUrlSuffixChar (c : Char) : Bool := isAtomChar c || c = '/'

/-- Repeatedly apply an anchored matcher (returning the matched length) along
the text, emitting each match and resuming after it — the semantics of
`text.match(/re/g)` for the patterns below (all of which match at least one
character). -/
def globalMatches (matchAt : Str → Option Nat) : Str → List Str
  | [] => []
  | c :: cs =>
    match matchAt (c :: cs) with
    | some n =>
      if h : 0 < n then (c :: cs).take n :: globalMatches matchAt ((c :: cs).drop n)
      else globalMatches matchAt cs
    | none => globalMatches matchAt cs
termination_by l => l.length
decreasing_by all_goals (simp only [List.length_drop, List.length_cons]; omega)

/-- Backtracking tail of the email pattern: inside the maximal `[\w.-]` run
`r2` after the `@`, find the last `.` that is followed by a word character;
the match then extends over the maximal following `\w+` run.  Returns the
matched length within `r2`. -/
def emailTail (r2 : Str) : Option Nat :=
  match ((List.range r2.length).filter (fun i =>
      decide (1 ≤ i) && decide ((r2.drop i).head? = some '.') &&
      (match (r2.drop (i + 1)).head? with
       | some c => isWordChar c
       | none => false))).getLast? with
  | some i => some (i + 1 + ((r2.drop (i + 1)).takeWhile isWordChar).length)
  | none => none

/-- Anchored match of `/[\w.-]+@[\w.-]+\.\w+/`. -/
def emailMatchAt (l : Str) : Option Nat :=
  let r1 := l.takeWhile isAtomChar
  if r1.length = 0 then none
  else
    match l.drop r1.length with
    | '@' :: rest2 =>
      (emailTail (rest2.takeWhile isAtomChar)).map (fun e => r1.length + 1 + e)
    | _ => none

/-- Case-insensitively strip a (lower-case) pattern prefix. -/
def stripCI : Str → Str → Option Str
  | [], l => some l
  | _, [] => none
  | p :: ps, c :: cs => if c.toLower = p then stripCI ps cs else none

/-- Anchored match of `/https?:\/\/[\w.-]+\.[a-z]{2,}[\w\/.-]*/i`:
the greedy host run `[\w.-]+` backtracks to the last `.` followed by at
least two letters; the trailing `[\w\/.-]*` run is maximal. -/
def urlMatchAt (l : Str) : Option Nat :=
  let head? : Option (Str × Nat) :=
    match stripCI (strOf "https://") l with
    | some r => some (r, 8)
    | none =>
      match stripCI (strOf "http://") l with
      | some r => some (r, 7)
      | none => none
  match head? with
  | none => none
  | some (rest, n0) =>
    let r1 := rest.takeWhile isAtomChar
    match ((List.range r1.length).filter (fun i =>
        decide (1 ≤ i) && decide ((r1.drop i).head? = some '.') &&
        ((r1.drop (i + 1)).take 2).all Char.isAlpha &&
        decide (2 ≤ ((r1.drop (i + 1)).take 2).length))).getLast? with
    | none => none
    | some i =>
      let ml := ((r1.drop (i + 1)).takeWhile Char.isAlpha).length
      let sl := ((rest.drop (i + 1 + ml)).takeWhile isUrlSuffixChar).length
      some (n0 + i + 1 + ml + sl)

/-- Anchored match of `/\d{1,2}\/\d{1,2}\/\d{4}|\d{4}-\d{2}-\d{2}/` with the
greedy preference order of the backtracking engine (ISO alternative first in
`fallbackAnalysis`'s `dates` pattern would be wrong — there the slash
alternative is listed first: `\d{1,2}\/\d{1,2}\/\d{4}|\d{4}-\d{2}-\d{2}`). -/
def dateMatchAt (l : Str) : Option Nat :=
  if slashDate22 l then some 10
  else if slashDate21 l then some 9
  else if slashDate12 l then some 9
  else if slashDate11 l then some 8
  else if isoDateAt l then some 10
  else none

/-- The `(?:,\d{3})*` comma-group run of the number pattern: consume `,ddd`
while present. -/
def commaGroups : Str → Nat
  | ',' :: a :: b :: c :: rest =>
    if a.isDigit && b.isDigit && c.isDigit then 4 + commaGroups rest else 0
  | _ => 0

/-- Anchored match of `/\d+(?:,\d{3})*(?:\.\d+)?/`. -/
def numMatchAt (l : Str) : Option Nat :=
  let d1 := l.takeWhile Char.isDigit
  if d1.length = 0 then none
  else
    let rest := l.drop d1.length
    let g := commaGroups rest
    let frac :=
      match rest.drop g with
      | '.' :: t =>
        let fd := t.takeWhile Char.isDigit
        if fd.length = 0 then 0 else 1 + fd.length
      | _ => 0
    some (d1.length + g + frac)

/-- `word.toLowerCase().replace(/[^\w]/g, '')`. -/
def cleanWord (w : Str) : Str := (jsToLower w).filter isWordChar

/-- Increment the count of `w`, keeping first-occurrence insertion order
(the enumeration order of a JS object's integer-free string keys). -/
def bumpFreq : List (Str × Nat) → Str → List (Str × Nat)
  | [], w => [(w, 1)]
  | (k, n) :: rest, w =>
    if k = w then (k, n + 1) :: rest else (k, n) :: bumpFreq rest w

/-- The `wordFreq` accumulation loop: count cleaned words longer than three
characters. -/
def wordFreqOf (words : List Str) : List (Str × Nat) :=
  words.foldl (fun acc w =>
    let cw := cleanWord w
    if 3 < cw.length then bumpFreq acc cw else acc) []

/-- Stable insertion of one entry into a count-descending list: placed
before the first strictly smaller count (`sort(([,a],[,b]) => b - a)` is a
stable sort in JS). -/
def insertDesc (x : Str × Nat) : List (Str × Nat) → List (Str × Nat)
  | [] => [x]
  | y :: ys => if y.2 < x.2 then x :: y :: ys else y :: insertDesc x ys

/-- Stable descending sort by count. -/
def sortDescByCount (l : List (Str × Nat)) : List (Str × Nat) :=
  l.foldr insertDesc []

/-- `Math.round(w / s)` in JavaScript number semantics: rounding half
towards positive infinity for finite quotients, `Infinity` when `s = 0 < w`
and `NaN` for `0/0`. -/
def jsRoundDiv (w s : Nat) : JVal :=
  if s = 0 then (if w = 0 then .nan else .inf)
  else .num (((2 * w + s) / (2 * s) : Nat) : Int)

/-- One entry of `structure.paragraphs`: 1-based index, unfiltered
whitespace-split length, and a 100-character preview with ellipsis. -/
def paraEntry (i : Nat) (para : Str) : JVal :=
  .obj [ (strOf "index", .num ((i : Int) + 1)),
         (strOf "word_count", .num ((splitRuns isWs para).length : Int)),
         (strOf "preview", .str (para.take 100 ++
           (if 100 < para.length then strOf "..." else []))) ]

/-- `fallbackAnalysis(text, contentType)` (actions.ts:262-316).  The wall
clock read by `new Date().toISOString()` is threaded in as the explicit
timestamp `ts`. -/
def fallbackAnalysis (text contentType ts : Str) : List (Str × JVal) :=
  let words := wordsOf text
  let sentences := sentencesOf text
  let paragraphs := paragraphsOf text
  let emails := globalMatches emailMatchAt text
  let urls := globalMatches urlMatchAt text
  let dates := globalMatches dateMatchAt text
  let numbers := globalMatches numMatchAt text
  let topWords := (sortDescByCount (wordFreqOf words)).take 10
  [ (strOf "document_type", .str contentType),
    (strOf "content_analysis", .obj [
      (strOf "word_count", .num (words.length : Int)),
      (strOf "sentence_count", .num (sentences.length : Int)),
      (strOf "paragraph_count", .num (paragraphs.length : Int)),
      (strOf "average_sentence_length", jsRoundDiv words.length sentences.length),
      (strOf "reading_time_minutes", .num (((words.length + 199) / 200 : Nat) : Int)) ]),
    (strOf "extracted_entities", .obj [
      (strOf "emails", .arr (emails.map JVal.str)),
      (strOf "urls", .arr (urls.map JVal.str)),
      (strOf "dates", .arr (dates.map JVal.str)),
      (strOf "numbers", .arr ((numbers.take 10).map JVal.str)) ]),
    (strOf "key_terms", .arr (topWords.map (fun wc =>
      .obj [(strOf "word", .str wc.1), (strOf "count", .num (wc.2 : Int))]))),
    (strOf "structure", .obj [
      (strOf "paragraphs", .arr (paragraphs.enum.map (fun ip => paraEntry ip.1 ip.2))) ]),
    (strOf "metadata", .obj [
      (strOf "analysis_method", .str (strOf "fallback_rule_based")),
      (strOf "processing_timestamp", .str ts),
      (strOf "content_type_detected", .str contentType) ]) ]

/-- JSON's own whitespace (as accepted between tokens by `JSON.parse`). -/
def isJsonWs (c : Char) : Bool := c = ' ' || c = '\t' || c = '\n' || c = '\r'

/-- Skip JSON whitespace. -/
def skipJsonWs (l : Str) : Str := l.dropWhile isJsonWs

/-- Value of one hexadecimal digit (0-9, a-f, A-F by code point). -/
def hexVal (c : Char) : Option Nat :=
  let n := c.toNat
  if c.isDigit then some (n - 48)
  else if 97 ≤ n && n ≤ 102 then some (n - 87)
  else if 65 ≤ n && n ≤ 70 then some (n - 55)
  else none

/-- Single-character JSON escapes. -/
def escMap (c : Char) : Option Char :=
  if c = '"' then some '"'
  else if c = '\\' then some '\\'
  else if c = '/' then some '/'
  else if c = 'b' then some (Char.ofNat 0x08)
  else if c = 'f' then some (Char.ofNat 0x0c)
  else if c = 'n' then some '\n'
  else if c = 'r' then some '\r'
  else if c = 't' then some '\t'
  else none

/-- Body of a JSON string literal, after the opening quote: decoded
characters plus the remainder after the closing quote.  (Unpaired `\u`
surrogates decode through `Char.ofNat`'s fallback; no claim involves
them.) -/
def parseStrBody : Str → Option (Str × Str)
  | '"' :: r => some ([], r)
  | '\\' :: 'u' :: a :: b :: c :: d :: r =>
    (match hexVal a, hexVal b, hexVal c, hexVal d, parseStrBody r with
     | some x, some y, some z, some w, some sr =>
       some (Char.ofNat (((x * 16 + y) * 16 + z) * 16 + w) :: sr.1, sr.2)
     | _, _, _, _, _ => none)
  | '\\' :: e :: r =>
    (match escMap e, parseStrBody r with
     | some c, some sr => some (c :: sr.1, sr.2)
     | _, _ => none)
  | c :: r =>
    if c.val < 0x20 then none
    else (parseStrBody r).map (fun sr => (c :: sr.1, sr.2))
  | [] => none

/-- Decimal digit list to a natural number. -/
def digitsToNat (ds : Str) : Nat :=
  ds.foldl (fun sofar d => 10 * sofar + (d.toNat - 48)) 0

/-- A JSON number literal.  Fractional and exponent parts are legal JSON but
lie outside the integer value model, so the parser rejects them (no claim
involves non-integer numbers). -/
def parseNumber (l : Str) : Option (JVal × Str) :=
  let neg := l.head? = some '-'
  let l1 := if neg then l.drop 1 else l
  let ds := l1.takeWhile Char.isDigit
  if ds.length = 0 then none
  else if 1 < ds.length && ds.head? = some '0' then none
  else
    match l1.drop ds.length with
    | '.' :: _ => none
    | 'e' :: _ => none
    | 'E' :: _ => none
    | rest =>
      some (.num (if neg then -(digitsToNat ds : Int) else (digitsToNat ds : Int)), rest)

mutual
/-- One JSON value (with leading whitespace) and the remainder. -/
def parseVal : Nat → Str → Option (JVal × Str)
  | 0, _ => none
  | fuel + 1, l =>
    match skipJsonWs l with
    | '{' :: r =>
      (match skipJsonWs r with
       | '}' :: r2 => some (.obj [], r2)
       | r2 => parseObjItems fuel r2 [])
    | '[' :: r =>
      (match skipJsonWs r with
       | ']' :: r2 => some (.arr [], r2)
       | r2 => parseArrItems fuel r2 [])
    | '"' :: r => (parseStrBody r).map (fun sr => (.str sr.1, sr.2))
    | 't' :: r =>
      if (strOf "rue").isPrefixOf r then some (.bool true, r.drop 3) else none
    | 'f' :: r =>
      if (strOf "alse").isPrefixOf r then some (.bool false, r.drop 4) else none
    | 'n' :: r =>
      if (strOf "ull").isPrefixOf r then some (.null, r.drop 3) else none
    | l2 => parseNumber l2

/-- Members of an object, positioned at a key; duplicate keys keep the first
position with the last value, as in JavaScript. -/
def parseObjItems : Nat → Str → List (Str × JVal) → Option (JVal × Str)
  | 0, _, _ => none
  | fuel + 1, l, acc =>
    match l with
    | '"' :: r =>
      (match parseStrBody r with
       | none => none
       | some kr =>
         match skipJsonWs kr.2 with
         | ':' :: r2 =>
           (match parseVal fuel r2 with
            | none => none
            | some vr =>
              let acc' := setKey acc kr.1 vr.1
              match skipJsonWs vr.2 with
              | ',' :: r4 => parseObjItems fuel (skipJsonWs r4) acc'
              | '}' :: r4 => some (.obj acc', r4)
              | _ => none)
         | _ => none)
    | _ => none

/-- Elements of an array, positioned at a value. -/
def parseArrItems : Nat → Str → List JVal → Option (JVal × Str)
  | 0, _, _ => none
  | fuel + 1, l, acc =>
    match parseVal fuel l with
    | none => none
    | some vr =>
      match skipJsonWs vr.2 with
      | ',' :: r2 => parseArrItems fuel r2 (acc ++ [vr.1])
      | ']' :: r2 => some (.arr (acc ++ [vr.1]), r2)
      | _ => none
end

/-- `JSON.parse`: one value spanning the whole input (modulo trailing
whitespace); `none` models the thrown `SyntaxError`. -/
def jsonParse (s : Str) : Option JVal :=
  match parseVal (s.length + 1) s with
  | some vr => if skipJsonWs vr.2 = [] then some vr.1 else none
  | none => none

/-- The greedy `\n?` following a fence. -/
def dropOptNl : Str → Str
  | '\n' :: r => r
  | r => r

/-- Global replacement of /```json\n?|\n?```/ with the empty string: at each
position the first alternative is tried first, matching the backtracking
engine. -/
def stripFences1 : Nat → Str → Str
  | 0, l => l
  | fuel + 1, l =>
    match l with
    | [] => []
    | c :: cs =>
      if (strOf "```json").isPrefixOf (c :: cs) then
        stripFences1 fuel (dropOptNl ((c :: cs).drop 7))
      else if c = '\n' && (strOf "```").isPrefixOf cs then
        stripFences1 fuel (cs.drop 3)
      else if (strOf "```").isPrefixOf (c :: cs) then
        stripFences1 fuel ((c :: cs).drop 3)
      else c :: stripFences1 fuel cs

/-- Global replacement of /```\n?|\n?```/ with the empty string. -/
def stripFences2 : Nat → Str → Str
  | 0, l => l
  | fuel + 1, l =>
    match l with
    | [] => []
    | c :: cs =>
      if (strOf "```").isPrefixOf (c :: cs) then
        stripFences2 fuel (dropOptNl ((c :: cs).drop 3))
      else if c = '\n' && (strOf "```").isPrefixOf cs then
        stripFences2 fuel (cs.drop 3)
      else c :: stripFences2 fuel cs

/-- `response.result.response.replace(/```json\n?|\n?```/g, '').replace(/```\n?|\n?```/g, '').trim()`. -/
def cleanFences (s : Str) : Str :=
  let t1 := stripFences1 (s.length + 1) s
  jsTrim (stripFences2 (t1.length + 1) t1)

/-- `response.result.response.match(/\{[\s\S]*\}/)`: greedy — from the first
opening brace to the last closing brace strictly after it. -/
def jsonMatch (l : Str) : Option Str :=
  match l.findIdx? (fun c => c = '{'),
        ((List.range l.length).filter
          (fun j => (l.drop j).head? = some '}')).getLast? with
  | some i, some j => if i < j then some ((l.drop i).take (j - i + 1)) else none
  | _, _ => none

/-- The `if (i === 0) combinedAnalysis = parsed; else mergeAnalysisResults(...)`
step for a strictly parsed chunk.  Accumulator and parse results are records
on every path the claims exercise; a top-level array (which the `typeof`
guard also admits) is left unmerged, as its index-keyed traversal is not
representable in the record model. -/
def mergeTop (acc parsed : JVal) : JVal :=
  match acc, parsed with
  | .obj a, .obj b => .obj (mergeAnalysisResults a b)
  | _, _ => acc

/-- Processing of one chunk's response text (actions.ts:195-225): strict
parse of the fence-cleaned text; an object-like result is assigned (`i = 0`)
or merged (`i > 0`); on a parse failure the `{...}`-substring recovery runs,
and its result is assigned only when `i = 0` — for every later chunk it is
discarded. -/
def chunkContribution (i : Nat) (acc : JVal) (resp : Str) : JVal :=
  match jsonParse (cleanFences resp) with
  | some parsed =>
    if isJsObject parsed then
      (if i = 0 then parsed else mergeTop acc parsed)
    else acc
  | none =>
    match jsonMatch resp with
    | some sub =>
      (match jsonParse sub with
       | some parsed => if i = 0 then parsed else acc
       | none => acc)
    | none => acc

/-- The per-chunk loop of `analyzeTextWithAI`: `svc i chunk` is the
Cloudflare call for chunk `i` (`.error` = the call threw, aborting the whole
`try` block; `.ok none` = no `result.response` field, skipping the chunk).
The loop processes at most the first `2` chunks. -/
def chunkLoop2 (svc : Nat → Str → Except Unit (Option Str)) :
    Nat → JVal → List Str → Except Unit JVal
  | _, acc, [] => .ok acc
  | i, acc, chunk :: rest =>
    if 2 ≤ i then .ok acc
    else
      match svc i chunk with
      | .error e => .error e
      | .ok none => chunkLoop2 svc (i + 1) acc rest
      | .ok (some resp) => chunkLoop2 svc (i + 1) (chunkContribution i acc resp) rest

/-- `Object.keys(x).length` for the accumulator emptiness test. -/
def jsKeysCount : JVal → Nat
  | .obj kvs => kvs.length
  | .arr xs => xs.length
  | _ => 0

/-- `analyzeTextWithAI(text, contentType)` (actions.ts:159-238): chunk at
the 3500-character threshold, run the loop, and return the accumulator when
it is non-empty; on an empty accumulator (`throw`) or a thrown service call
(`catch`), return `fallbackAnalysis`. -/
def analyzeTextWithAI (svc : Nat → Str → Except Unit (Option Str))
    (text contentType ts : Str) : JVal :=
  match chunkLoop2 svc 0 (.obj []) (chunkText text 3500) with
  | .error _ => .obj (fallbackAnalysis text contentType ts)
  | .ok acc =>
    if 0 < jsKeysCount acc then acc else .obj (fallbackAnalysis text contentType ts)

mutual
/-- `extractFields(data, prefix)`: every key contributes its dotted path;
recursion into plain-object values while the prefix has fewer than three
dot-separated segments. -/
def extractFieldsGo : List (Str × JVal) → Str → List Str
  | [], _ => []
  | (k, v) :: rest, pfx =>
    let full := if pfx = [] then k else pfx ++ '.' :: k
    (full :: extractFieldsVal v full pfx) ++ extractFieldsGo rest pfx

/-- The nested-recursion guard: only non-array objects are descended into,
and only while `prefix.split('.').length < 3`. -/
def extractFieldsVal : JVal → Str → Str → List Str
  | .obj kvs, full, pfx =>
    if (splitChar '.' pfx).length < 3 then extractFieldsGo kvs full else []
  | _, _, _ => []
end

/-- `extractFields(data)` with the default empty prefix. -/
def extractFields (data : List (Str × JVal)) (pfx : Str := []) : List Str :=
  extractFieldsGo data pfx

/-- The test `serializedLength / textLength > thr` in IEEE semantics:
division by zero yields Infinity (greater than any threshold) unless the
numerator is also zero (NaN compares false). -/
def extractionRatioGt (num den : Nat) (thr : ℚ) : Bool :=
  if den = 0 then (if num = 0 then false else true)
  else decide (thr < (num : ℚ) / (den : ℚ))

/-- `!data.metadata?.analysis_method?.includes('fallback')` with JavaScript
optional-chaining semantics: a missing/null link yields `undefined` (falsy);
a string value uses `String.prototype.includes`, an array value
`Array.prototype.includes` (strict equality against 'fallback'); any other
non-null `analysis_method` value has no `includes` method, so the call
throws a TypeError (`.error`). -/
def analysisMethodCheck (data : List (Str × JVal)) : Except Unit Bool :=
  match lookupKey data (strOf "metadata") with
  | none => .ok false
  | some (.obj mkvs) =>
    (match lookupKey mkvs (strOf "analysis_method") with
     | none => .ok false
     | some .null => .ok false
     | some (.str s) => .ok (containsSub s (strOf "fallback"))
     | some (.arr xs) =>
       .ok (xs.any (fun v =>
         match v with
         | .str t => decide (t = strOf "fallback")
         | _ => false))
     | some _ => .error ())
  | some _ => .ok false

/-- `calculateConfidence(data, originalText)` (actions.ts:319-348) over
exact rationals; `.error` is the TypeError described at
`analysisMethodCheck` (thrown before the return statement is reached). -/
def calculateConfidence (data : List (Str × JVal)) (originalText : Str) :
    Except Unit ℚ :=
  match analysisMethodCheck data with
  | .error e => .error e
  | .ok isFallbackMarked =>
    let c1 : ℚ := 1/2 + (if 5 < data.length then 1/10 else 0) +
      (if 10 < data.length then 1/10 else 0)
    let hasArrays := data.any (fun kv => isJsArray kv.2)
    let hasObjects := data.any (fun kv => isJsObject kv.2 && !isJsArray kv.2)
    let c2 := c1 + (if hasArrays then 1/10 else 0) +
      (if hasObjects then 1/10 else 0)
    let sl := (jsonStringify (.obj data)).length
    let tl := originalText.length
    let c3 := c2 + (if extractionRatioGt sl tl (1/10) then 1/10 else 0) +
      (if extractionRatioGt sl tl (3/10) then 1/10 else 0)
    let c4 := c3 + (if !isFallbackMarked then 1/5 else 0)
    .ok (min (19/20) (max (3/10) c4))

/-- `generateSummary(text)`: truncate to 2000 characters, call the service;
a thrown call yields the catch's placeholder, a response without text yields
the other placeholder, otherwise the trimmed response text. -/
def generateSummary (svc : Str → Except Unit (Option Str)) (text : Str) : Str :=
  match svc (text.take 2000) with
  | .ok (some r) => jsTrim r
  | .ok none => strOf "Summary generation failed"
  | .error _ => strOf "Unable to generate summary"

/-- The record inside a successful `AnalysisResult`. -/
structure AnalysisData where
  data : JVal
  fields : List Str
  inputType : Str
  confidence : ℚ
  summary : Str
  wordCount : Nat
deriving Inhabited

/-- The result record of `analyzeText`. -/
structure AnalysisResult where
  success : Bool
  data : Option AnalysisData := none
  error : Option Str := none
deriving Inhabited

/-- The entries of the structured record (used for `Object.keys`-driven
consumers; the structured data is an object on every path the claims
exercise). -/
def entriesOfRecord : JVal → List (Str × JVal)
  | .obj kvs => kvs
  | _ => []

/-- `analyzeText(inputText)` (actions.ts:351-413): validation (empty, then
word count, then length), then content-type detection, summary, structured
extraction, confidence and fields.  `sumSvc`/`extSvc` are the two service
oracles and `ts` the wall-clock timestamp.  A TypeError escaping
`calculateConfidence` is caught by the inner catch and reported as
`Analysis failed: ...`; the engine-specific message text is abstracted to
"TypeError". -/
def analyzeText (sumSvc : Str → Except Unit (Option Str))
    (extSvc : Nat → Str → Except Unit (Option Str))
    (ts : Str) (inputText : Str) : AnalysisResult :=
  if jsTrim inputText = [] then
    { success := false, error := some (strOf "No text provided for analysis") }
  else
    if (wordsOf inputText).length < 5 then
      { success := false,
        error := some (strOf "Text is too short for meaningful analysis") }
    else if 50000 < inputText.length then
      { success := false,
        error := some (strOf "Text is too long. Please limit to 50,000 characters or less.") }
    else
      let contentType := detectContentType inputText
      let summary := generateSummary sumSvc inputText
      let structuredData := analyzeTextWithAI extSvc inputText contentType ts
      match calculateConfidence (entriesOfRecord structuredData) inputText with
      | .error _ =>
        { success := false, error := some (strOf "Analysis failed: TypeError") }
      | .ok confidence =>
        { success := true,
          data := some {
            data := structuredData,
            fields := extractFields (entriesOfRecord structuredData),
            inputType := contentType,
            confidence := confidence,
            summary := summary,
            wordCount := (wordsOf inputText).length } }

/-- A response contributes nothing to the accumulator regardless of the
chunk index: either the strictly parsed value is not object-like, or strict
parsing fails and the `{...}`-recovery finds nothing parseable. -/
def respNoContribution (r : Str) : Bool :=
  match jsonParse (cleanFences r) with
  | some v => !isJsObject v
  | none =>
    match jsonMatch r with
    | none => true
    | some sub => (jsonParse sub).isNone

/-! ## Theorems: the claims and their supporting lemmas -/

theorem lookupKey_setKey_self (t : List (Str × JVal)) (k : Str) (v : JVal) :
    lookupKey (setKey t k v) k = some v := by
  induction t with
  | nil => simp [setKey, lookupKey]
  | cons hd rest ih =>
    obtain ⟨k', v'⟩ := hd
    by_cases h : k' = k <;> simp [setKey, lookupKey, h, ih]

theorem lookupKey_setKey_ne (t : List (Str × JVal)) (k' k : Str) (v : JVal)
    (h : k' ≠ k) : lookupKey (setKey t k' v) k = lookupKey t k := by
  induction t with
  | nil => simp [setKey, lookupKey, h]
  | cons hd rest ih =>
    obtain ⟨k'', v''⟩ := hd
    by_cases h2 : k'' = k' <;> simp [setKey, lookupKey, h2, h, ih]

/-- Every branch of a merge step either keeps the target object or updates
it at the step's own key. -/
theorem mergeKeyInto_eq_or (t : List (Str × JVal)) (k : Str) (sv : JVal)
    (tv? : Option JVal) :
    mergeKeyInto t k sv tv? = t ∨ ∃ x, mergeKeyInto t k sv tv? = setKey t k x := by
  rw [mergeKeyInto.eq_def]
  repeat' split
  all_goals first
    | exact Or.inl rfl
    | exact Or.inr ⟨_, rfl⟩

/-- A merge step at a key different from `k` alters only that key, so the
binding at `k` is untouched. -/
theorem lookupKey_mergeKeyInto_ne (t : List (Str × JVal)) (k' k : Str)
    (sv : JVal) (tv? : Option JVal) (h : k' ≠ k) :
    lookupKey (mergeKeyInto t k' sv tv?) k = lookupKey t k := by
  rcases mergeKeyInto_eq_or t k' sv tv? with he | ⟨x, he⟩
  · rw [he]
  · rw [he, lookupKey_setKey_ne _ _ _ _ h]

/-- When the target already holds a truthy scalar at the key, the merge step
leaves the whole target object unchanged (every branch falls through to the
target-wins case). -/
theorem mergeKeyInto_scalar_truthy (t : List (Str × JVal)) (k : Str)
    (sv tv : JVal) (hs : isScalar tv = true) (ht : truthy tv = true) :
    mergeKeyInto t k sv (some tv) = t := by
  rw [mergeKeyInto.eq_def]
  cases tv <;> cases sv <;> simp_all [isScalar, isJsObject, truthy]

/-- Core preservation argument: if the target binds `k` to a truthy scalar,
no iteration of the merge loop modifies that binding. -/
theorem lookupKey_merge_scalar_truthy (source : List (Str × JVal)) :
    ∀ (target : List (Str × JVal)) (k : Str) (tv : JVal),
      lookupKey target k = some tv → isScalar tv = true → truthy tv = true →
      lookupKey (mergeAnalysisResults target source) k = some tv := by
  induction source with
  | nil => intro t k tv hl _ _; simpa [mergeAnalysisResults] using hl
  | cons hd rest ih =>
    intro t k tv hl hs ht
    obtain ⟨k', sv⟩ := hd
    rw [mergeAnalysisResults]
    by_cases hk : k' = k
    · subst hk
      rw [hl, mergeKeyInto_scalar_truthy t k' sv tv hs ht]
      exact ih t k' tv hl hs ht
    · have hpres := lookupKey_mergeKeyInto_ne t k' k sv (lookupKey t k') hk
      exact ih _ k tv (hpres.trans hl) hs ht

/-- Merge step when both values are arrays: concatenate and deduplicate. -/
theorem mergeKeyInto_arr_arr (t : List (Str × JVal)) (k : Str)
    (sa ta : List JVal) :
    mergeKeyInto t k (.arr sa) (some (.arr ta))
      = setKey t k (.arr (dedupByStringify (ta ++ sa))) := by
  rw [mergeKeyInto.eq_def]

/-- Keys never mentioned by the source are untouched by the whole merge. -/
theorem lookupKey_merge_notin (source : List (Str × JVal)) :
    ∀ (target : List (Str × JVal)) (k : Str),
      k ∉ source.map Prod.fst →
      lookupKey (mergeAnalysisResults target source) k = lookupKey target k := by
  induction source with
  | nil => intro t k _; simp [mergeAnalysisResults]
  | cons hd rest ih =>
    intro t k hk
    obtain ⟨k', sv⟩ := hd
    simp only [List.map_cons, List.mem_cons] at hk
    push_neg at hk
    rw [mergeAnalysisResults, ih _ k hk.2,
      lookupKey_mergeKeyInto_ne t k' k sv _ (fun h => hk.1 h.symm)]

/-- Array-valued bindings shared by target and source merge to the
deduplicated concatenation (target's elements first). -/
theorem lookupKey_merge_arrays (source : List (Str × JVal)) :
    ∀ (target : List (Str × JVal)) (k : Str) (ta sa : List JVal),
      (source.map Prod.fst).Nodup →
      lookupKey target k = some (.arr ta) →
      lookupKey source k = some (.arr sa) →
      lookupKey (mergeAnalysisResults target source) k
        = some (.arr (dedupByStringify (ta ++ sa))) := by
  induction source with
  | nil => intro t k ta sa _ _ hs; simp [lookupKey] at hs
  | cons hd rest ih =>
    intro t k ta sa hnd ht hs
    obtain ⟨k', sv⟩ := hd
    simp only [List.map_cons, List.nodup_cons] at hnd
    rw [lookupKey] at hs
    rw [mergeAnalysisResults]
    by_cases hk : k' = k
    · subst hk
      simp only [if_pos rfl] at hs
      cases hs
      rw [ht, mergeKeyInto_arr_arr,
        lookupKey_merge_notin rest _ k' hnd.1, lookupKey_setKey_self]
    · rw [if_neg hk] at hs
      have hpres := lookupKey_mergeKeyInto_ne t k' k sv (lookupKey t k') hk
      exact ih _ k ta sa hnd.2 (hpres.trans ht) hs

/-- Claim C1 as stated is false: the merge's "add new properties" test is
JavaScript falsiness (`!target[key]`), so a falsy scalar already present in
the target — here the number `0` — is overwritten by the source's value
instead of being kept. -/
theorem claim_C1_counterexample :
    mergeAnalysisResults [(strOf "a", JVal.num 0)] [(strOf "a", JVal.num 5)]
        = [(strOf "a", JVal.num 5)] ∧ JVal.num 5 ≠ JVal.num 0 := by
  constructor
  · simp [mergeAnalysisResults, mergeKeyInto, lookupKey, setKey, truthy, isJsObject]
  · simp

/-- Claim C1 (amended): for every target and source document and every key at
which both hold a scalar (non-object, non-array) value, if the target's
scalar is truthy (not 0, "", false, null or NaN) then merging source into
target leaves the target's value at that key unchanged; a falsy target
scalar is instead overwritten by the source's value. -/
theorem claim_C1 (target source : List (Str × JVal)) (k : Str) (tv sv : JVal)
    (htv : lookupKey target k = some tv) (hsv : lookupKey source k = some sv)
    (hts : isScalar tv = true) (hss : isScalar sv = true)
    (htr : truthy tv = true) :
    lookupKey (mergeAnalysisResults target source) k = some tv :=
  lookupKey_merge_scalar_truthy source target k tv htv hts htr

/-- Witness for C1: a truthy scalar conflict where the target value "x"
survives the merge. -/
theorem claim_C1_witness :
    lookupKey (mergeAnalysisResults [(strOf "a", JVal.str (strOf "x"))]
        [(strOf "a", JVal.num 5)]) (strOf "a") = some (JVal.str (strOf "x")) :=
  claim_C1 _ _ _ _ _ rfl rfl rfl rfl (by simp [truthy, strOf])

/-- Claim C6: when target and source hold arrays at the same key, the merge
stores the concatenation deduplicated by identical JSON serializations in
first-occurrence order; and the spec's two-chunk example merges exactly as
stated. -/
theorem claim_C6 :
    (∀ (target source : List (Str × JVal)) (k : Str) (ta sa : List JVal),
        (source.map Prod.fst).Nodup →
        lookupKey target k = some (.arr ta) →
        lookupKey source k = some (.arr sa) →
        lookupKey (mergeAnalysisResults target source) k
          = some (.arr (dedupByStringify (ta ++ sa)))) ∧
    mergeAnalysisResults
        [(strOf "a", .arr [.num 1, .num 2]), (strOf "b", .str (strOf "x"))]
        [(strOf "a", .arr [.num 2, .num 3]), (strOf "b", .str (strOf "y")),
          (strOf "c", .num 5)]
      = [(strOf "a", .arr [.num 1, .num 2, .num 3]),
          (strOf "b", .str (strOf "x")), (strOf "c", .num 5)] := by
  constructor
  · intro target source k ta sa hnd ht hs
    exact lookupKey_merge_arrays source target k ta sa hnd ht hs
  · simp [mergeAnalysisResults, mergeKeyInto, lookupKey, setKey, truthy,
      isJsObject, strOf, dedupByStringify, dedupByStringify.go, jsonStringify,
      intToStr, natDigits, Nat.toDigits, Nat.toDigitsCore, List.contains,
      Nat.digitChar]

/-- Witness for C6: the universally quantified conjunct applied at concrete
one-key documents. -/
theorem claim_C6_witness :
    lookupKey (mergeAnalysisResults [(strOf "xs", JVal.arr [JVal.num 1])]
        [(strOf "xs", JVal.arr [JVal.num 1, JVal.num 2])]) (strOf "xs")
      = some (JVal.arr (dedupByStringify ([JVal.num 1] ++ [JVal.num 1, JVal.num 2]))) :=
  claim_C6.1 _ _ _ _ _ (by simp) rfl rfl

/-- Claim C4 as stated is false: for a short text the code returns `[text]`
itself; the trimming happens only inside the long-text loop, so a short
input with leading whitespace is returned untrimmed. -/
theorem claim_C4_counterexample :
    chunkText (strOf " a") 3000 = [strOf " a"] ∧ strOf " a" ≠ jsTrim (strOf " a") := by
  constructor
  · rfl
  · decide

/-- Claim C4 (amended): for every text whose length is at most the
chunk-size threshold, the Chunker returns a sequence of exactly one chunk,
and that chunk equals the input text itself (untrimmed; it coincides with
the trimmed input only when the input has no leading or trailing
whitespace). -/
theorem claim_C4 (text : Str) (m : Nat) (h : text.length ≤ m) :
    chunkText text m = [text] := by
  unfold chunkText
  rw [if_pos h]

/-- Witness for C4 at a concrete two-character text. -/
theorem claim_C4_witness : chunkText (strOf "hi") 3000 = [strOf "hi"] :=
  claim_C4 (strOf "hi") 3000 (by decide)

/-- Claim C9: for every text and every maximum chunk size of at least one
character, each iteration of the chunking loop strictly advances the cursor,
whether the cut is the raw window edge or a sentence/paragraph break point —
hence the loop terminates. -/
theorem claim_C9 (text : Str) (m start : Nat) (hm : 1 ≤ m)
    (hs : start < text.length) : start < chunkStep text m start := by
  unfold chunkStep
  dsimp only
  split
  · split
    · next hbp => omega
    · omega
  · omega

/-- Witness for C9 at a concrete text and chunk size. -/
theorem claim_C9_witness :
    1 ≤ 5 ∧ 0 < (strOf "hello world").length ∧
      0 < chunkStep (strOf "hello world") 5 0 :=
  ⟨by decide, by decide, claim_C9 (strOf "hello world") 5 0 (by decide) (by decide)⟩

/-- Claim C5: the classifier equals the spec's ordered-rule evaluation
(first true predicate of §4.1 wins, default General Text) — it is pure and
total by construction — and any text containing "abstract", "introduction"
and "conclusion" classifies as Academic Paper even when it also contains
"ingredients" and "recipe". -/
theorem claim_C5 :
    (∀ text : Str, detectContentType text = detectContentTypeSpec text) ∧
    (∀ text : Str,
      containsSub (jsToLower text) (strOf "abstract") = true →
      containsSub (jsToLower text) (strOf "introduction") = true →
      containsSub (jsToLower text) (strOf "conclusion") = true →
      containsSub (jsToLower text) (strOf "ingredients") = true →
      containsSub (jsToLower text) (strOf "recipe") = true →
      detectContentType text = strOf "Academic Paper") := by
  constructor
  · intro text
    rfl
  · intro text h1 h2 h3 _ _
    simp only [detectContentType, h1, h2, h3, Bool.and_self, if_pos]

/-- Witness for C5's conditional conjunct at a concrete text containing
both the academic and the recipe keywords. -/
theorem claim_C5_witness :
    detectContentType (strOf "abstract introduction conclusion ingredients recipe")
      = strOf "Academic Paper" :=
  claim_C5.2 (strOf "abstract introduction conclusion ingredients recipe")
    (by decide) (by decide) (by decide) (by decide) (by decide)

/-- A non-separator character always lands in some fragment of the split
(both loop states). -/
theorem mem_splitRuns_aux (p : Char → Bool) (c : Char) (hc : p c = false) :
    ∀ l : Str,
      (∀ cur : Str, c ∈ l ∨ c ∈ cur →
        ∃ frag ∈ splitRunsFrag p cur l, c ∈ frag) ∧
      (c ∈ l → ∃ frag ∈ splitRunsSep p l, c ∈ frag) := by
  intro l
  induction l with
  | nil =>
    refine ⟨fun cur h => ⟨cur.reverse, ?_, ?_⟩, fun h => absurd h (List.not_mem_nil c)⟩
    · simp [splitRunsFrag]
    · rcases h with h | h
      · exact absurd h (List.not_mem_nil c)
      · simpa using h
  | cons d cs ih =>
    constructor
    · intro cur h
      by_cases hd : p d
      · rw [splitRunsFrag, if_pos hd]
        rcases h with h | h
        · rcases List.mem_cons.mp h with rfl | h
          · rw [hd] at hc; cases hc
          · obtain ⟨frag, hf, hcf⟩ := ih.2 h
            exact ⟨frag, List.mem_cons_of_mem _ hf, hcf⟩
        · exact ⟨cur.reverse, List.mem_cons_self _ _, by simpa using h⟩
      · rw [splitRunsFrag, if_neg hd]
        apply ih.1 (d :: cur)
        rcases h with h | h
        · rcases List.mem_cons.mp h with rfl | h
          · exact Or.inr (List.mem_cons_self _ _)
          · exact Or.inl h
        · exact Or.inr (List.mem_cons_of_mem _ h)
    · intro h
      by_cases hd : p d
      · rw [splitRunsSep, if_pos hd]
        rcases List.mem_cons.mp h with rfl | h
        · rw [hd] at hc; cases hc
        · exact ih.2 h
      · rw [splitRunsSep, if_neg hd]
        apply ih.1 [d]
        rcases List.mem_cons.mp h with rfl | h
        · exact Or.inr (List.mem_cons_self _ _)
        · exact Or.inl h

/-- A character surviving the predicate also survives `dropWhile`. -/
theorem mem_dropWhile_of_mem (p : Char → Bool) (c : Char) (hc : p c = false) :
    ∀ l : Str, c ∈ l → c ∈ l.dropWhile p := by
  intro l
  induction l with
  | nil => intro h; exact absurd h (List.not_mem_nil c)
  | cons d cs ih =>
    intro h
    by_cases hd : p d
    · rw [List.dropWhile_cons_of_pos hd]
      rcases List.mem_cons.mp h with rfl | h
      · rw [hd] at hc; cases hc
      · exact ih h
    · rw [List.dropWhile_cons_of_neg hd]
      exact h

/-- A fragment containing a non-whitespace character trims to something
non-empty. -/
theorem jsTrim_pos_of_mem (l : Str) (c : Char) (hmem : c ∈ l)
    (hws : isWs c = false) : 0 < (jsTrim l).length := by
  have h1 : c ∈ l.dropWhile isWs := mem_dropWhile_of_mem isWs c hws l hmem
  have h2 : c ∈ (l.dropWhile isWs).reverse := List.mem_reverse.mpr h1
  have h3 : c ∈ (l.dropWhile isWs).reverse.dropWhile isWs :=
    mem_dropWhile_of_mem isWs c hws _ h2
  have h4 : c ∈ jsTrim l := List.mem_reverse.mpr h3
  exact List.length_pos.mpr (List.ne_nil_of_mem h4)

/-- Claim C10 as stated is false: the five-word input ". . . . ." passes all
three validation checks of `analyzeText` (non-empty after trimming, five
whitespace-delimited words, length 9), yet it has no sentence fragment that
survives trimming, so the sentence count is zero and
`words.length / sentences.length` is a division by zero (JavaScript yields
Infinity, not a finite average). -/
theorem claim_C10_counterexample :
    (jsTrim (strOf ". . . . .") ≠ [] ∧
     5 ≤ (wordsOf (strOf ". . . . .")).length ∧
     (strOf ". . . . .").length ≤ 50000) ∧
    (sentencesOf (strOf ". . . . .")).length = 0 := by
  decide

/-- Claim C10 (amended): for every input accepted by `analyzeText`'s
validation that moreover contains at least one character that is neither a
sentence terminator (`.`, `!`, `?`) nor whitespace, the fallback analyzer's
sentence count is strictly positive, so the computed average sentence length
is a finite number.  (Validation alone does not guarantee this: an accepted
input may consist entirely of terminators and whitespace.) -/
theorem claim_C10 (text : Str)
    (hne : jsTrim text ≠ [])
    (hwords : 5 ≤ (wordsOf text).length)
    (hlen : text.length ≤ 50000)
    (hchar : ∃ c ∈ text, isSentTerm c = false ∧ isWs c = false) :
    0 < (sentencesOf text).length := by
  obtain ⟨c, hmem, hterm, hws⟩ := hchar
  obtain ⟨frag, hfrag, hcf⟩ :=
    (mem_splitRuns_aux isSentTerm c hterm text).1 [] (Or.inl hmem)
  have hpred : decide (0 < (jsTrim frag).length) = true :=
    decide_eq_true (jsTrim_pos_of_mem frag c hcf hws)
  have : frag ∈ sentencesOf text := by
    unfold sentencesOf splitRuns
    exact List.mem_filter.mpr ⟨hfrag, hpred⟩
  exact List.length_pos.mpr (List.ne_nil_of_mem this)

/-- Witness for C10 at a concrete accepted input with ordinary words. -/
theorem claim_C10_witness :
    0 < (sentencesOf (strOf "The quick brown fox jumps over dogs.")).length :=
  claim_C10 (strOf "The quick brown fox jumps over dogs.")
    (by decide) (by decide) (by decide)
    ⟨'T', by decide, by decide, by decide⟩

/-- `dropWhile` is the identity on lists without `p`-characters. -/
theorem dropWhile_eq_self_of_none (p : Char → Bool) (l : Str)
    (h : ∀ c ∈ l, p c = false) : l.dropWhile p = l := by
  cases l with
  | nil => rfl
  | cons d cs =>
    rw [List.dropWhile_cons_of_neg]
    simp [h d (List.mem_cons_self d cs)]

/-- Trimming is the identity on whitespace-free text. -/
theorem jsTrim_eq_self (l : Str) (h : ∀ c ∈ l, isWs c = false) : jsTrim l = l := by
  unfold jsTrim
  rw [dropWhile_eq_self_of_none isWs l h,
    dropWhile_eq_self_of_none isWs l.reverse (fun c hc => h c (List.mem_reverse.mp hc)),
    List.reverse_reverse]

/-- A separator-free text splits into the single fragment holding it all. -/
theorem splitRunsFrag_no_sep (p : Char → Bool) :
    ∀ l cur : Str, (∀ c ∈ l, p c = false) →
      splitRunsFrag p cur l = [cur.reverse ++ l] := by
  intro l
  induction l with
  | nil => intro cur _; simp [splitRunsFrag]
  | cons d cs ih =>
    intro cur h
    rw [splitRunsFrag, if_neg (by simp [h d (List.mem_cons_self d cs)]),
      ih (d :: cur) (fun c hc => h c (List.mem_cons_of_mem d hc))]
    simp

/-- The word list of a whitespace-free, non-empty text is that text alone. -/
theorem wordsOf_no_ws (l : Str) (hne : l ≠ [])
    (h : ∀ c ∈ l, isWs c = false) : wordsOf l = [l] := by
  unfold wordsOf splitRuns
  rw [splitRunsFrag_no_sep isWs l [] h]
  simp [List.length_pos.mpr hne]

/-- Shared evaluation for both C2 theorems: a 60,000-fold repetition of one
non-whitespace character is a single word, so `analyzeText` rejects it at
the word-count check — before the length check is ever reached. -/
theorem analyzeText_replicate_tooShort
    (sumSvc : Str → Except Unit (Option Str))
    (extSvc : Nat → Str → Except Unit (Option Str)) (ts : Str) (c : Char)
    (hc : isWs c = false) :
    analyzeText sumSvc extSvc ts (List.replicate 60000 c)
      = { success := false,
          error := some (strOf "Text is too short for meaningful analysis") } := by
  have hall : ∀ x ∈ List.replicate 60000 c, isWs x = false := by
    intro x hx
    rw [List.eq_of_mem_replicate hx]
    exact hc
  have hne : List.replicate 60000 c ≠ [] := by
    intro h
    have hlen := congrArg List.length h
    rw [List.length_replicate] at hlen
    exact absurd hlen (by norm_num)
  have htrim : jsTrim (List.replicate 60000 c) ≠ [] := by
    rw [jsTrim_eq_self _ hall]; exact hne
  have hwords : wordsOf (List.replicate 60000 c) = [List.replicate 60000 c] :=
    wordsOf_no_ws _ hne hall
  unfold analyzeText
  rw [if_neg htrim, hwords]
  rw [if_pos (show ([List.replicate 60000 c] : List Str).length < 5 by
    rw [List.length_singleton]; norm_num)]

/-- Claim C2 as stated is false: on 60,000 repetitions of a non-whitespace
character, `analyzeText` returns the too-short message (the word-count check
runs before the length check, and such an input is one word), not the
length-limit message the claim requires. -/
theorem claim_C2_counterexample :
    analyzeText (fun _ => .error ()) (fun _ _ => .error ()) []
        (List.replicate 60000 'a')
      = { success := false,
          error := some (strOf "Text is too short for meaningful analysis") } ∧
    some (strOf "Text is too short for meaningful analysis")
      ≠ some (strOf "Text is too long. Please limit to 50,000 characters or less.") := by
  refine ⟨analyzeText_replicate_tooShort _ _ _ 'a' (by decide), ?_⟩
  decide

/-- Claim C2 (amended): for every input consisting of a single non-whitespace
character repeated 60,000 times, `analyzeText` returns `success: false` with
the too-short error "Text is too short for meaningful analysis" — the
word-count validation (1 word < 5) precedes the length check, so the
length-limit message is never produced for such inputs. -/
theorem claim_C2 (sumSvc : Str → Except Unit (Option Str))
    (extSvc : Nat → Str → Except Unit (Option Str)) (ts : Str) (c : Char)
    (hc : isWs c = false) :
    analyzeText sumSvc extSvc ts (List.replicate 60000 c)
      = { success := false,
          error := some (strOf "Text is too short for meaningful analysis") } :=
  analyzeText_replicate_tooShort sumSvc extSvc ts c hc

/-- Witness for C2 at the character 'x'. -/
theorem claim_C2_witness :
    analyzeText (fun _ => .ok none) (fun _ _ => .ok none) []
        (List.replicate 60000 'x')
      = { success := false,
          error := some (strOf "Text is too short for meaningful analysis") } :=
  claim_C2 (fun _ => .ok none) (fun _ _ => .ok none) [] 'x' (by decide)

/-- A chunk after the first whose response fails strict parsing never
changes the accumulator, whatever the recovery does. -/
theorem chunkContribution_failedParse (i : Nat) (acc : JVal) (r : Str)
    (hi0 : i ≠ 0) (hparse : jsonParse (cleanFences r) = none) :
    chunkContribution i acc r = acc := by
  unfold chunkContribution
  rw [hparse]
  cases hm : jsonMatch r with
  | none => rfl
  | some sub =>
    dsimp only
    cases hp : jsonParse sub with
    | none => rfl
    | some parsed =>
      dsimp only
      rw [if_neg hi0]

/-- Claim C3 as stated is false.  With a first chunk answering strict JSON
and a second chunk answering prose around a JSON object, the second chunk's
response fails strict parsing but the `{...}`-substring recovery parses it;
the loop nevertheless returns the first chunk's document unchanged — the
recovered result is not merged (the recovery assignment is guarded by
`i === 0`), unlike a strictly parsed second chunk. -/
theorem claim_C3_counterexample :
    (chunkLoop2
        (fun i _ => if i = 0 then .ok (some (strOf "\x7b\"a\": 1\x7d"))
                    else .ok (some (strOf "note \x7b\"b\": 2\x7d")))
        0 (.obj []) [strOf "c0", strOf "c1"]
      = .ok (.obj [(strOf "a", .num 1)])) ∧
    jsonParse (cleanFences (strOf "note \x7b\"b\": 2\x7d")) = none ∧
    (jsonMatch (strOf "note \x7b\"b\": 2\x7d")).bind jsonParse
      = some (.obj [(strOf "b", .num 2)]) ∧
    JVal.obj (mergeAnalysisResults [(strOf "a", .num 1)] [(strOf "b", .num 2)])
      = .obj [(strOf "a", .num 1), (strOf "b", .num 2)] ∧
    JVal.obj [(strOf "a", .num 1)]
      ≠ .obj [(strOf "a", .num 1), (strOf "b", .num 2)] := by
  refine ⟨rfl, rfl, rfl, rfl, ?_⟩
  intro h
  simp at h

/-- Claim C3 (amended): in the structured extraction loop, a chunk after the
first whose response fails strict JSON parsing contributes nothing to the
accumulator — even when the `{...}`-substring recovery yields a parseable
document.  (The recovery result is assigned only for the first chunk; only
strictly parsed results of subsequent chunks are merged.) -/
theorem claim_C3 (svc : Nat → Str → Except Unit (Option Str)) (i : Nat)
    (acc : JVal) (chunk : Str) (rest : List Str) (r : Str)
    (hi1 : 1 ≤ i) (hi2 : i < 2)
    (hsvc : svc i chunk = .ok (some r))
    (hparse : jsonParse (cleanFences r) = none) :
    chunkLoop2 svc i acc (chunk :: rest) = chunkLoop2 svc (i + 1) acc rest := by
  rw [chunkLoop2, if_neg (by omega), hsvc]
  dsimp only
  rw [chunkContribution_failedParse i acc r (by omega) hparse]

/-- Witness for C3: the loop at chunk index 1 with the prose-wrapped
response steps to the next chunk with the accumulator unchanged. -/
theorem claim_C3_witness :
    chunkLoop2
        (fun i _ => if i = 0 then .ok (some (strOf "\x7b\"a\": 1\x7d"))
                    else .ok (some (strOf "note \x7b\"b\": 2\x7d")))
        1 (.obj [(strOf "a", .num 1)]) [strOf "c1"]
      = chunkLoop2
          (fun i _ => if i = 0 then .ok (some (strOf "\x7b\"a\": 1\x7d"))
                      else .ok (some (strOf "note \x7b\"b\": 2\x7d")))
          2 (.obj [(strOf "a", .num 1)]) [] :=
  claim_C3 _ 1 _ (strOf "c1") [] (strOf "note \x7b\"b\": 2\x7d")
    (by norm_num) (by norm_num) rfl rfl

/-- `respNoContribution` indeed forces the step to keep the accumulator. -/
theorem chunkContribution_noContrib (i : Nat) (acc : JVal) (r : Str)
    (h : respNoContribution r = true) : chunkContribution i acc r = acc := by
  unfold chunkContribution
  unfold respNoContribution at h
  cases hp : jsonParse (cleanFences r) with
  | some v =>
    rw [hp] at h
    simp only [Bool.not_eq_true'] at h
    dsimp only
    simp [h]
  | none =>
    rw [hp] at h
    dsimp only
    cases hm : jsonMatch r with
    | none => rfl
    | some sub =>
      rw [hm] at h
      dsimp only at h ⊢
      cases hp2 : jsonParse sub with
      | none => rfl
      | some parsed => rw [hp2] at h; simp [Option.isNone] at h

/-- The loop consults only the first `2 - i` chunks: later chunks are
discarded. -/
theorem chunkLoop2_take (svc : Nat → Str → Except Unit (Option Str)) :
    ∀ (chunks : List Str) (i : Nat) (acc : JVal),
      chunkLoop2 svc i acc chunks = chunkLoop2 svc i acc (chunks.take (2 - i)) := by
  intro chunks
  induction chunks with
  | nil => intro i acc; rw [List.take_nil]
  | cons c rest ih =>
    intro i acc
    by_cases hi : 2 ≤ i
    · have h0 : 2 - i = 0 := by omega
      rw [h0, List.take_zero]
      conv_lhs => rw [chunkLoop2]
      rw [if_pos hi]
      rfl
    · have h2 : 2 - i = (1 - i) + 1 := by omega
      rw [h2, List.take_succ_cons, chunkLoop2, chunkLoop2, if_neg hi, if_neg hi]
      have hrec : 2 - (i + 1) = 1 - i := by omega
      cases hsvc : svc i c with
      | error e => rfl
      | ok o =>
        cases o with
        | none => dsimp only; rw [ih (i + 1) acc, hrec]
        | some resp => dsimp only; rw [ih (i + 1) (chunkContribution i acc resp), hrec]

/-- Under universally non-contributing responses the loop either aborts (a
thrown call) or returns the accumulator unchanged. -/
theorem chunkLoop2_noContrib (svc : Nat → Str → Except Unit (Option Str))
    (H : ∀ j c, svc j c = .error () ∨ svc j c = .ok none ∨
      ∃ r, svc j c = .ok (some r) ∧ respNoContribution r = true) :
    ∀ (chunks : List Str) (i : Nat) (acc : JVal),
      chunkLoop2 svc i acc chunks = .error () ∨
      chunkLoop2 svc i acc chunks = .ok acc := by
  intro chunks
  induction chunks with
  | nil => intro i acc; exact Or.inr rfl
  | cons c rest ih =>
    intro i acc
    rw [chunkLoop2]
    by_cases hi : 2 ≤ i
    · rw [if_pos hi]; exact Or.inr rfl
    · rw [if_neg hi]
      rcases H i c with h | h | ⟨r, hr, hnc⟩
      · rw [h]; exact Or.inl rfl
      · rw [h]; exact ih (i + 1) acc
      · rw [hr]
        dsimp only
        rw [chunkContribution_noContrib i acc r hnc]
        exact ih (i + 1) acc

/-- The dotted key paths of the fallback document are a fixed list,
independent of the input text (the values vary; the shape does not). -/
theorem extractFields_fallback (text ct ts : Str) :
    extractFields (fallbackAnalysis text ct ts) =
      [strOf "document_type", strOf "content_analysis",
       strOf "content_analysis.word_count", strOf "content_analysis.sentence_count",
       strOf "content_analysis.paragraph_count",
       strOf "content_analysis.average_sentence_length",
       strOf "content_analysis.reading_time_minutes", strOf "extracted_entities",
       strOf "extracted_entities.emails", strOf "extracted_entities.urls",
       strOf "extracted_entities.dates", strOf "extracted_entities.numbers",
       strOf "key_terms", strOf "structure", strOf "structure.paragraphs",
       strOf "metadata", strOf "metadata.analysis_method",
       strOf "metadata.processing_timestamp", strOf "metadata.content_type_detected"] := by
  simp only [fallbackAnalysis, extractFields]
  generalize (wordsOf text).length = w
  generalize (sentencesOf text).length = s
  cases s <;> cases w <;> rfl

/-- Claim C7: the extractor chunks at the 3500-character threshold and
consults at most the first two chunks (later chunks are discarded);
whenever no chunk yields a parseable object (for example when the service
throws because credentials are missing), it returns the fallback analyzer's
document, whose `metadata.analysis_method` is `"fallback_rule_based"` and
whose extracted fields include `"content_analysis.word_count"`. -/
theorem claim_C7 :
    (∀ (svc : Nat → Str → Except Unit (Option Str)) (i : Nat) (acc : JVal)
        (chunks : List Str),
        chunkLoop2 svc i acc chunks = chunkLoop2 svc i acc (chunks.take (2 - i))) ∧
    (∀ (svc : Nat → Str → Except Unit (Option Str)) (text ct ts : Str),
        analyzeTextWithAI svc text ct ts =
          match chunkLoop2 svc 0 (.obj []) ((chunkText text 3500).take 2) with
          | .error _ => .obj (fallbackAnalysis text ct ts)
          | .ok acc =>
            if 0 < jsKeysCount acc then acc else .obj (fallbackAnalysis text ct ts)) ∧
    (∀ (svc : Nat → Str → Except Unit (Option Str)) (text ct ts : Str),
        (∀ j c, svc j c = .error () ∨ svc j c = .ok none ∨
          ∃ r, svc j c = .ok (some r) ∧ respNoContribution r = true) →
        analyzeTextWithAI svc text ct ts = .obj (fallbackAnalysis text ct ts)) ∧
    (∀ text ct ts : Str,
        ((lookupKey (fallbackAnalysis text ct ts) (strOf "metadata")).bind (fun m =>
          match m with
          | .obj kvs => lookupKey kvs (strOf "analysis_method")
          | _ => none)) = some (.str (strOf "fallback_rule_based")) ∧
        strOf "content_analysis.word_count" ∈ extractFields (fallbackAnalysis text ct ts)) := by
  refine ⟨fun svc i acc chunks => chunkLoop2_take svc chunks i acc, ?_, ?_, ?_⟩
  · intro svc text ct ts
    unfold analyzeTextWithAI
    rw [chunkLoop2_take svc (chunkText text 3500) 0 (.obj [])]
  · intro svc text ct ts H
    unfold analyzeTextWithAI
    rcases chunkLoop2_noContrib svc H (chunkText text 3500) 0 (.obj []) with h | h
    · rw [h]
    · rw [h]
      rfl
  · intro text ct ts
    refine ⟨rfl, ?_⟩
    rw [extractFields_fallback]
    decide

/-- Witness for C7: with a service that always throws (missing credentials),
the extractor returns the fallback document. -/
theorem claim_C7_witness :
    analyzeTextWithAI (fun _ _ => .error ()) (strOf "hello world")
        (strOf "General Text") (strOf "2024-01-01")
      = .obj (fallbackAnalysis (strOf "hello world") (strOf "General Text")
          (strOf "2024-01-01")) :=
  claim_C7.2.2.1 (fun _ _ => .error ()) (strOf "hello world")
    (strOf "General Text") (strOf "2024-01-01") (fun _ _ => Or.inl rfl)

/-- Claim C8 as stated is false: on a document whose
`metadata.analysis_method` is a number, the scorer does not return at all —
`(5)?.includes('fallback')` throws a TypeError (numbers have no `includes`
method), so no value in [0.30, 0.95] (or at all) is produced even though the
original text "h" is non-empty. -/
theorem claim_C8_counterexample :
    ¬ ∃ q : ℚ,
      calculateConfidence
          [(strOf "metadata", .obj [(strOf "analysis_method", .num 5)])]
          (strOf "h") = .ok q ∧ 3/10 ≤ q ∧ q ≤ 19/20 := by
  rintro ⟨q, hq, -⟩
  rw [show calculateConfidence
      [(strOf "metadata", .obj [(strOf "analysis_method", .num 5)])]
      (strOf "h") = .error () from rfl] at hq
  cases hq

/-- Claim C8 (amended): whenever the confidence scorer returns a value — it
throws a TypeError instead when the document's `metadata.analysis_method` is
present but is neither a string, an array, nor null — that value lies in the
closed interval [0.30, 0.95]; the final clamp guarantees the bounds for
every document and every original text. -/
theorem claim_C8 (data : List (Str × JVal)) (text : Str) (q : ℚ)
    (h : calculateConfidence data text = .ok q) :
    3/10 ≤ q ∧ q ≤ 19/20 := by
  unfold calculateConfidence at h
  cases hc : analysisMethodCheck data with
  | error e => rw [hc] at h; cases h
  | ok b =>
    rw [hc] at h
    dsimp only at h
    injection h with h
    subst h
    constructor
    · exact le_min (by norm_num) (le_max_left _ _)
    · exact min_le_left _ _

/-- Witness for C8 at the empty document and the text "h" (the scorer
returns exactly 0.9 there). -/
theorem claim_C8_witness : 3/10 ≤ (9/10 : ℚ) ∧ (9/10 : ℚ) ≤ 19/20 :=
  claim_C8 [] (strOf "h") (9/10) (by
    unfold calculateConfidence analysisMethodCheck
    norm_num [lookupKey, extractionRatioGt, jsonStringify, stringifyEntries,
      joinComma, strOf, isJsArray, isJsObject])
